import Mathlib

/-!
Verification of the `info` plugin (diagnostic bundler) of this repository.

The development embeds, straight from the two Python sources
(`src/plugins/info/plugin.py` and `material/plugins/info/plugin.py`):

* the POSIX path helpers the plugin calls (`os.path.join`, `os.path.dirname`,
  `os.path.normpath`) — transcribed from the CPython `posixpath` algorithms the
  plugin relies on;
* `_resolve_pattern` (path normalization for pattern matching);
* `_is_excluded` together with a model of `fnmatch.fnmatchcase` glob matching;
* the two path-containment validation loops of `on_config`;
* `_load_yaml` / `_yaml_load` (the recursive INHERIT chain loader), with an
  explicit fuel argument standing for the (unbounded) Python call stack;
* the `os.walk` traversal with in-place directory pruning, and the archive
  assembly that follows it.

All definitions are executable; machine state (filesystem, YAML parser) is
passed explicitly as function-valued parameters.
-/

namespace Info

/-! ## Character-list string helpers

The plugin manipulates paths as strings.  We work on `List Char` (the `data`
of a `String`) so that every operation is a plain structural recursion.
-/

/-- Build a string back from its character list. -/
def ofChars (l : List Char) : String := ⟨l⟩

/-- `listStarts l p` decides whether `l` starts with `p`
(Python `str.startswith`). -/
def listStarts : List Char → List Char → Bool
  | _, [] => true
  | [], _ :: _ => false
  | c :: cs, d :: ds => c = d && listStarts cs ds

/-- `strStarts s p` — Python `s.startswith(p)`. -/
def strStarts (s p : String) : Bool := listStarts s.data p.data

/-- Prefix as a proposition: `isPre a b` iff `a` is an initial segment of `b`. -/
def isPre (a b : List Char) : Prop := ∃ t, a ++ t = b

theorem listStarts_iff (l p : List Char) : listStarts l p = true ↔ isPre p l := by
  induction p generalizing l with
  | nil => simp [listStarts, isPre]
  | cons d ds ih =>
    cases l with
    | nil => simp [listStarts, isPre]
    | cons c cs =>
      simp only [listStarts, Bool.and_eq_true, decide_eq_true_eq, ih, isPre]
      constructor
      · rintro ⟨rfl, t, rfl⟩
        exact ⟨t, rfl⟩
      · rintro ⟨t, h⟩
        cases h
        exact ⟨rfl, t, rfl⟩

/-- Remove the first occurrence of the (non-empty) pattern `pat` inside `s`;
`s` is returned unchanged when `pat` does not occur.  This is Python
`s.replace(pat, "", 1)` for a non-empty `pat`. -/
def removeFirstSub (pat : List Char) : List Char → List Char
  | [] => []
  | c :: cs =>
    if listStarts (c :: cs) pat then (c :: cs).drop pat.length
    else c :: removeFirstSub pat cs

/-- Replace every occurrence of the character `sep` by `'/'`
(Python `s.replace(os.sep, "/")` for the one-character `os.sep`). -/
def sepToSlash (sep : Char) (l : List Char) : List Char :=
  l.map fun c => if c = sep then '/' else c

/-! ## `_resolve_pattern`

```python
def _resolve_pattern(abspath: str):
    path = abspath.replace(os.getcwd(), "", 1).replace(os.sep, "/")
    if not path:
        return "/"
    # Check abspath, as the file needs to exist
    if not os.path.isfile(abspath):
        return path + "/"
    return path
```

The working directory, the platform separator and the `os.path.isfile`
predicate are explicit parameters.
-/

/-- `_resolve_pattern` from `src/plugins/info/plugin.py`. -/
def resolvePattern (cwd : String) (sep : Char) (isfile : String → Bool)
    (abspath : String) : String :=
  let path := ofChars (sepToSlash sep (removeFirstSub cwd.data abspath.data))
  if path = "" then "/"
  else if !(isfile abspath) then path ++ "/"
  else path

/-- What the spec's words for `normalize` say: strip the working-directory
string only when it is a *leading* occurrence, convert separators, then apply
the trailing-slash rule.  Used solely to compare the spec's description of
`normalize` against the behaviour of `_resolve_pattern`. -/
def resolvePatternSpec (cwd : String) (sep : Char) (isfile : String → Bool)
    (abspath : String) : String :=
  let stripped :=
    if listStarts abspath.data cwd.data then abspath.data.drop cwd.data.length
    else abspath.data
  let path := ofChars (sepToSlash sep stripped)
  if path = "" then "/"
  else if !(isfile abspath) then path ++ "/"
  else path

theorem removeFirstSub_of_starts (pat l : List Char) (hne : pat ≠ [])
    (h : listStarts l pat = true) : removeFirstSub pat l = l.drop pat.length := by
  cases l with
  | nil =>
    cases pat with
    | nil => simp at hne
    | cons d ds => simp [listStarts] at h
  | cons c cs => simp [removeFirstSub, h]

/-- Dropping the length of a genuine initial segment removes exactly it. -/
theorem drop_length_append (a t : List Char) : (a ++ t).drop a.length = t := by
  simp

theorem listStarts_append_self (a t : List Char) : listStarts (a ++ t) a = true :=
  (listStarts_iff (a ++ t) a).2 ⟨t, rfl⟩

theorem data_ne_nil_of_ne_empty (s : String) (h : s ≠ "") : s.data ≠ [] := by
  intro hd
  apply h
  have hs : s = ⟨s.data⟩ := rfl
  rw [hs, hd]

/-- Claim C5 (amended): for every absolute path that starts with the working
directory, `_resolve_pattern` removes that leading occurrence once, converts
platform separators to `/`, and appends a trailing slash exactly when the path
is not an existing regular file; the working directory itself normalizes
to `/`.  (The unamended claim quantified over *every* absolute path; see the
counterexample for paths that merely contain the working directory inside.) -/
theorem resolvePattern_on_cwd_descendants (cwd rest : String) (sep : Char)
    (isfile : String → Bool) (hcwd : cwd ≠ "") :
    resolvePattern cwd sep isfile cwd = "/" ∧
    (ofChars (sepToSlash sep rest.data) ≠ "" →
      resolvePattern cwd sep isfile (cwd ++ rest) =
        (if isfile (cwd ++ rest) then ofChars (sepToSlash sep rest.data)
         else ofChars (sepToSlash sep rest.data) ++ "/")) := by
  have hne := data_ne_nil_of_ne_empty cwd hcwd
  constructor
  · have hstart : listStarts cwd.data cwd.data = true := by
      have := listStarts_append_self cwd.data []
      simpa using this
    have hrm : removeFirstSub cwd.data cwd.data = [] := by
      rw [removeFirstSub_of_starts cwd.data cwd.data hne hstart]
      simp
    simp [resolvePattern, hrm, sepToSlash, ofChars]
  · intro hpath
    have hdata : (cwd ++ rest).data = cwd.data ++ rest.data := by
      cases cwd; cases rest; rfl
    have hstart : listStarts (cwd ++ rest).data cwd.data = true := by
      rw [hdata]; exact listStarts_append_self cwd.data rest.data
    have hrm : removeFirstSub cwd.data (cwd ++ rest).data = rest.data := by
      rw [removeFirstSub_of_starts cwd.data _ hne hstart, hdata,
        drop_length_append]
    rw [resolvePattern, hrm]
    simp only [hpath, if_neg hpath]
    cases hf : isfile (cwd ++ rest) <;> simp [hf]

/-- Witness for C5 at concrete inputs: working directory `/proj`, candidate
`/proj/site` (not a regular file), and the working directory itself. -/
theorem resolvePattern_on_cwd_descendants_witness :
    resolvePattern "/proj" '/' (fun _ => false) "/proj" = "/" ∧
    resolvePattern "/proj" '/' (fun _ => false) ("/proj" ++ "/site") =
      ofChars (sepToSlash '/' "/site".data) ++ "/" := by
  have h := resolvePattern_on_cwd_descendants "/proj" "/site" '/'
    (fun _ => false) (by decide)
  refine ⟨h.1, ?_⟩
  rw [h.2 (by decide)]
  simp

/-- Counterexample to C5 as stated: `_resolve_pattern` does not leave a path
intact when the working directory occurs only as an inner substring — it
deletes that inner occurrence, while the spec's prefix-stripping description
(`resolvePatternSpec`) leaves the path unchanged.  Concretely, for working
directory `/proj` and path `/etc/proj/a`, the code yields `/etc/a/` whereas
the spec's description yields `/etc/proj/a/`. -/
theorem resolvePattern_inner_occurrence_cex :
    resolvePattern "/proj" '/' (fun _ => false) "/etc/proj/a" = "/etc/a/" ∧
    resolvePatternSpec "/proj" '/' (fun _ => false) "/etc/proj/a" =
      "/etc/proj/a/" ∧
    resolvePattern "/proj" '/' (fun _ => false) "/etc/proj/a" ≠
      resolvePatternSpec "/proj" '/' (fun _ => false) "/etc/proj/a" := by
  refine ⟨by decide, by decide, by decide⟩

/-- Claim C10: `_resolve_pattern` deletes the first occurrence of the working
directory anywhere inside the path, not only a leading one: `/etc/proj/data`
does not start with the working directory `/proj`, yet the inner `/proj` is
removed, yielding `/etc/data/`. -/
theorem resolvePattern_deletes_inner_occurrence :
    strStarts "/etc/proj/data" "/proj" = false ∧
    resolvePattern "/proj" '/' (fun _ => false) "/etc/proj/data" =
      "/etc/data/" := by
  refine ⟨by decide, by decide⟩

/-! ## Path-containment validation

`src/plugins/info/plugin.py`, `on_config`:

```python
for path in reversed(paths_to_validate):
    if not path or path.startswith(os.getcwd()):
        paths_to_validate.remove(path)
```

Python's `reversed` iterator reads the live list at a descending index (the
index stays in range because at most one element is removed per step), and
`list.remove` deletes the first occurrence equal to its argument.  Both are
modelled exactly: `pyRemove` is `list.remove`, and `removeIter rem l i`
continues the loop with the iterator positioned at index `i - 1`.

`material/plugins/info/plugin.py`, `on_config`:

```python
invalid_paths = []
for path in paths_to_validate:
    if not path.startswith(os.getcwd()):
        invalid_paths.append(path)
    elif not os.path.exists(path):
        invalid_paths.append(path)
```
-/

/-- Python `list.remove(v)`: delete the first element equal to `v`. -/
def pyRemove (l : List String) (v : String) : List String :=
  match l with
  | [] => []
  | x :: xs => if x = v then xs else x :: pyRemove xs v

/-- The `for path in reversed(lst): if rem(path): lst.remove(path)` loop,
with the reverse iterator about to read index `i - 1`. -/
def removeIter (rem : String → Bool) : List String → Nat → List String
  | l, 0 => l
  | l, i + 1 =>
    let v := l.getD i ""
    if rem v then removeIter rem (pyRemove l v) i else removeIter rem l i

/-- The `src` variant of path validation: the loop removes every path that is
empty or starts with the working directory; what remains is reported as the
violations.  Existence on the filesystem is never consulted. -/
def validateSrc (cwd : String) (paths : List String) : List String :=
  removeIter (fun p => p = "" || strStarts p cwd) paths paths.length

/-- The `material` variant of path validation: a path is appended to
`invalid_paths` when it does not start with the working directory, or exists
check fails. -/
def validateMaterial (cwd : String) (fsExists : String → Bool)
    (paths : List String) : List String :=
  paths.foldl
    (fun acc p =>
      if !(strStarts p cwd) then acc ++ [p]
      else if !(fsExists p) then acc ++ [p]
      else acc) []

theorem pyRemove_append_of_mem (v : String) (A B : List String) (h : v ∈ A) :
    pyRemove (A ++ B) v = pyRemove A v ++ B := by
  induction A with
  | nil => cases h
  | cons x xs ih =>
    by_cases hx : x = v
    · simp [pyRemove, hx]
    · rcases List.mem_cons.mp h with heq | hmem
      · exact absurd heq.symm hx
      · simp [pyRemove, hx, ih hmem]

theorem pyRemove_length_of_mem (v : String) (A : List String) (h : v ∈ A) :
    (pyRemove A v).length + 1 = A.length := by
  induction A with
  | nil => cases h
  | cons x xs ih =>
    by_cases hx : x = v
    · simp [pyRemove, hx]
    · rcases List.mem_cons.mp h with heq | hmem
      · exact absurd heq.symm hx
      · simp only [pyRemove, if_neg hx, List.length_cons]
        rw [← ih hmem]

theorem filter_pyRemove (rem : String → Bool) (v : String) (A : List String)
    (hv : rem v = true) :
    (pyRemove A v).filter (fun w => !rem w) = A.filter (fun w => !rem w) := by
  induction A with
  | nil => rfl
  | cons x xs ih =>
    by_cases hx : x = v
    · subst hx
      simp [pyRemove, List.filter_cons, hv]
    · simp only [pyRemove, if_neg hx, List.filter_cons]
      cases hrx : rem x <;> simp [ih]

/-- The reverse-iteration removal loop, started at index `i - 1` over a list
whose elements from position `i` on are all kept, filters the first `i`
positions by the removal predicate. -/
theorem removeIter_eq (rem : String → Bool) :
    ∀ (i : Nat) (l : List String), i ≤ l.length →
    (∀ v ∈ l.drop i, rem v = false) →
    removeIter rem l i = (l.take i).filter (fun v => !rem v) ++ l.drop i := by
  intro i
  induction i with
  | zero =>
    intro l _ _
    simp [removeIter]
  | succ i ih =>
    intro l hle hgood
    have hi : i < l.length := hle
    obtain ⟨v, hveq⟩ : ∃ v, l[i] = v := ⟨_, rfl⟩
    have hv : l.getD i "" = v := by
      rw [List.getD_eq_getElem l "" hi, hveq]
    have htakei : l.take i ++ [v] = l.take (i + 1) := by
      rw [← hveq]
      exact List.take_concat_get' l i hi
    have hdropi : l.drop i = v :: l.drop (i + 1) := by
      rw [← hveq]
      exact List.drop_eq_getElem_cons hi
    by_cases hrem : rem v = true
    · have hvA : v ∈ l.take (i + 1) := by
        rw [← htakei]
        simp
      have hsplit : l = l.take (i + 1) ++ l.drop (i + 1) :=
        (List.take_append_drop _ l).symm
      have hrw : pyRemove l v =
          pyRemove (l.take (i + 1)) v ++ l.drop (i + 1) := by
        conv_lhs => rw [hsplit]
        exact pyRemove_append_of_mem _ _ _ hvA
      have hlen : (pyRemove (l.take (i + 1)) v).length = i := by
        have h1 := pyRemove_length_of_mem _ _ hvA
        have h2 : (l.take (i + 1)).length = i + 1 := by
          simp [List.length_take]
          omega
        omega
      have hle' : i ≤ (pyRemove l v).length := by
        rw [hrw]
        simp [hlen]
      have hdrop' : (pyRemove l v).drop i = l.drop (i + 1) := by
        rw [hrw]
        exact List.drop_left' hlen
      have htake' : (pyRemove l v).take i = pyRemove (l.take (i + 1)) v := by
        rw [hrw]
        exact List.take_left' hlen
      have hgood' : ∀ w ∈ (pyRemove l v).drop i, rem w = false := by
        rw [hdrop']
        exact hgood
      have hih := ih (pyRemove l v) hle' hgood'
      simp only [removeIter, hv, hrem, if_true]
      rw [hih, htake', hdrop', filter_pyRemove rem v _ hrem]
    · have hremf : rem v = false := eq_false_of_ne_true hrem
      have hgood' : ∀ w ∈ l.drop i, rem w = false := by
        rw [hdropi]
        intro w hw
        rcases List.mem_cons.mp hw with heq | hw'
        · rw [heq]
          exact hremf
        · exact hgood w hw'
      have hih := ih l (le_of_lt hi) hgood'
      simp only [removeIter, hv, hremf, Bool.false_eq_true, if_false]
      rw [hih, hdropi, ← htakei]
      simp [List.filter_append, List.filter_cons, hremf]

/-- The material-variant loop is a plain filter. -/
theorem validateMaterial_eq_filter (cwd : String) (fsExists : String → Bool)
    (paths : List String) :
    validateMaterial cwd fsExists paths =
      paths.filter (fun p => !(strStarts p cwd) || !(fsExists p)) := by
  have key : ∀ (l : List String) (acc : List String),
      l.foldl
        (fun acc p =>
          if !(strStarts p cwd) then acc ++ [p]
          else if !(fsExists p) then acc ++ [p]
          else acc) acc =
      acc ++ l.filter (fun p => !(strStarts p cwd) || !(fsExists p)) := by
    intro l
    induction l with
    | nil => intro acc; simp
    | cons x xs ih =>
      intro acc
      rw [List.foldl_cons, List.filter_cons]
      by_cases hs : strStarts x cwd = true
      · by_cases he : fsExists x = true
        · rw [if_neg (by simp [hs]), if_neg (by simp [he]), ih]
          simp [hs, he]
        · rw [if_neg (by simp [hs]), if_pos (by simp [he]), ih]
          simp [hs, he]
      · rw [if_pos (by simp [hs]), ih]
        simp [hs]
  exact key paths []

/-- Claim C1 (amended): the two validators characterize violations
differently, and neither matches the claimed iff.  In the `src` variant a
candidate is flagged iff it is non-empty and does not start with the working
directory — existence on the filesystem plays no role.  In the `material`
variant a candidate is flagged iff it does not start with the working
directory or does not exist — an empty candidate is not specially skipped
(it never starts with a non-empty working directory, hence is flagged). -/
theorem validators_characterization (cwd : String) (fsExists : String → Bool)
    (paths : List String) :
    validateSrc cwd paths =
      paths.filter (fun p => !(p = "" || strStarts p cwd)) ∧
    validateMaterial cwd fsExists paths =
      paths.filter (fun p => !(strStarts p cwd) || !(fsExists p)) := by
  constructor
  · have h := removeIter_eq (fun p => p = "" || strStarts p cwd)
      paths.length paths le_rfl (by simp)
    simpa [validateSrc] using h
  · exact validateMaterial_eq_filter cwd fsExists paths

/-- Counterexample to C1 as stated: take working directory `/proj`, a
filesystem on which nothing exists, and the single candidate `/proj/missing`.
The candidate is non-empty and does not exist, so the claim requires it to be
flagged; the `src` validator flags nothing, because it never consults the
filesystem. -/
theorem validateSrc_ignores_existence_cex :
    ("/proj/missing" ≠ "" ∧ (fun _ : String => false) "/proj/missing" = false) ∧
    validateSrc "/proj" ["/proj/missing"] = [] := by
  refine ⟨⟨by decide, rfl⟩, by decide⟩

/-- Claim C2 (amended): the violation collection is a list, not a set — a
path outside the working directory is reported once per occurrence among the
candidate sources, so duplicates are preserved rather than collapsed. -/
theorem validateSrc_violation_multiplicity (cwd p : String)
    (paths : List String) (h1 : p ≠ "") (h2 : strStarts p cwd = false) :
    (validateSrc cwd paths).count p = paths.count p := by
  have h := removeIter_eq (fun q => q = "" || strStarts q cwd)
    paths.length paths le_rfl (by simp)
  have hs : validateSrc cwd paths =
      paths.filter (fun q => !(q = "" || strStarts q cwd)) := by
    simpa [validateSrc] using h
  rw [hs]
  exact List.count_filter (by simp [h1, h2])

/-- Witness for C2 (amended) at a concrete input: the out-of-tree path
`/other/a` appears twice among the candidates and twice among the
violations. -/
theorem validateSrc_violation_multiplicity_witness :
    (validateSrc "/proj" ["/other/a", "/other/a"]).count "/other/a" = 2 := by
  rw [validateSrc_violation_multiplicity "/proj" "/other/a"
    ["/other/a", "/other/a"] (by decide) (by decide)]
  decide

/-- Counterexample to C2 as stated: with working directory `/proj` and the
out-of-tree candidate `/other/a` occurring in two candidate sources, the
accumulated violation collection holds it twice, not exactly once. -/
theorem validateSrc_duplicate_violations_cex :
    validateSrc "/proj" ["/other/a", "/other/a"] = ["/other/a", "/other/a"] ∧
    (["/other/a", "/other/a"].count "/other/a" ≠ 1) := by
  refine ⟨by decide, by decide⟩

/-! ## Glob matching and `_is_excluded`

`fnmatch.fnmatchcase` compiles the pattern into a whole-string,
case-sensitive matcher with `*`, `?`, and `[...]` character classes
(`[!...]` negation, a `]` directly after the opening bracket is literal, an
unclosed `[` is literal, `a-b` ranges with an empty range never matching, and
a `-` at the start or end of a class is literal).  `globMatch` implements
that matcher directly on character lists.

```python
def _is_excluded(self, posix_path: str) -> bool:
    for pattern in self.exclusion_patterns:
        if fnmatch.fnmatchcase(posix_path, pattern):
            return True
    return False
```
-/

/-- Scan for the closing `]` of a character class; returns the class body and
the remainder of the pattern. -/
def scanClose : List Char → Option (List Char × List Char)
  | [] => none
  | ']' :: rest => some ([], rest)
  | c :: rest => (scanClose rest).map fun pr => (c :: pr.1, pr.2)

/-- Split off a `[...]` class body: a leading `!` and a `]` directly after it
do not close the class. -/
def classSplit : List Char → Option (List Char × List Char)
  | '!' :: ']' :: rest => (scanClose rest).map fun pr => ('!' :: ']' :: pr.1, pr.2)
  | '!' :: rest => (scanClose rest).map fun pr => ('!' :: pr.1, pr.2)
  | ']' :: rest => (scanClose rest).map fun pr => (']' :: pr.1, pr.2)
  | l => scanClose l

/-- Does the character `c` belong to the (un-negated) class body?  `a-b`
denotes an inclusive range; a `-` that cannot form a range is literal. -/
def rangeMatch : List Char → Char → Bool
  | a :: '-' :: b :: rest, c => decide (a ≤ c ∧ c ≤ b) || rangeMatch rest c
  | a :: rest, c => (a = c) || rangeMatch rest c
  | [], _ => false

/-- Does the pattern match the empty string?  Only a run of `*` can. -/
def globMatchEmpty : List Char → Bool
  | [] => true
  | '*' :: ps => globMatchEmpty ps
  | _ => false

/-- One matching step against the first character `c` of the string;
`next q` continues matching the pattern remainder `q` against the string's
tail. -/
def globStepF (next : List Char → Bool) : List Char → Char → Bool
  | [], _ => false
  | '*' :: ps, c => globStepF next ps c || next ('*' :: ps)
  | '?' :: ps, _ => next ps
  | '[' :: ps, c =>
    (match classSplit ps with
     | none => (c = '[') && next ps
     | some (stuff, rest) =>
       (match stuff with
        | '!' :: spec => !(rangeMatch spec c)
        | spec => rangeMatch spec c) && next rest)
  | ch :: ps, c => (ch = c) && next ps

/-- Whole-string glob matching: `globMatch pattern s`. -/
def globMatch : (p s : List Char) → Bool
  | p, [] => globMatchEmpty p
  | p, c :: s2 => globStepF (fun q => globMatch q s2) p c

/-- `fnmatch.fnmatchcase(name, pattern)`. -/
def fnmatchcase (nm pat : String) : Bool := globMatch pat.data nm.data

/-- `InfoPlugin._is_excluded`: first-match loop over the loaded patterns. -/
def isExcluded (patterns : List String) (posixPath : String) : Bool :=
  patterns.any fun pat => fnmatchcase posixPath pat

/-- Claim C6: `_is_excluded` returns true iff at least one loaded pattern
glob-matches the normalized path, and its boolean outcome is invariant under
any permutation of the pattern list. -/
theorem isExcluded_characterization (patterns patterns2 : List String)
    (posixPath : String) (hperm : patterns.Perm patterns2) :
    (isExcluded patterns posixPath = true ↔
      ∃ pat ∈ patterns, fnmatchcase posixPath pat = true) ∧
    isExcluded patterns2 posixPath = isExcluded patterns posixPath := by
  constructor
  · simp [isExcluded, List.any_eq_true]
  · have h2 : isExcluded patterns2 posixPath = true ↔
        isExcluded patterns posixPath = true := by
      simp only [isExcluded, List.any_eq_true]
      constructor
      · rintro ⟨pat, hmem, hm⟩
        exact ⟨pat, hperm.mem_iff.mpr hmem, hm⟩
      · rintro ⟨pat, hmem, hm⟩
        exact ⟨pat, hperm.mem_iff.mp hmem, hm⟩
    cases hb : isExcluded patterns posixPath
    · cases hb2 : isExcluded patterns2 posixPath
      · rfl
      · rw [hb] at h2
        exact absurd (h2.mp hb2) (by simp)
    · exact h2.mpr hb

/-- Witness for C6 at concrete inputs: patterns `a*` and `build/` in both
orders against the path `abc`. -/
theorem isExcluded_characterization_witness :
    (isExcluded ["a*", "build/"] "abc" = true ↔
      ∃ pat ∈ ["a*", "build/"], fnmatchcase "abc" pat = true) ∧
    isExcluded ["build/", "a*"] "abc" = isExcluded ["a*", "build/"] "abc" :=
  isExcluded_characterization ["a*", "build/"] ["build/", "a*"] "abc"
    (by decide)

/-! ## POSIX path functions

`_load_yaml` resolves the INHERIT target with
`os.path.normpath(os.path.join(os.path.dirname(source_path), relpath))`.
These are the CPython `posixpath` algorithms, transcribed on character
lists. -/

/-- Python `str.split('/')`. -/
def splitSlash : List Char → List (List Char)
  | [] => [[]]
  | '/' :: rest => [] :: splitSlash rest
  | c :: rest =>
    match splitSlash rest with
    | [] => [[c]]
    | g :: gs => (c :: g) :: gs

/-- Python `'/'.join(parts)`. -/
def joinSlash : List (List Char) → List Char
  | [] => []
  | [x] => x
  | x :: xs => x ++ '/' :: joinSlash xs

/-- `posixpath.normpath`:  collapse `//`, `.` and `..` components, keeping
the special two-slash root. -/
def normpathChars (p : List Char) : List Char :=
  if p = [] then ['.']
  else
    let initialSlashes : Nat :=
      if listStarts p ['/', '/'] && !(listStarts p ['/', '/', '/']) then 2
      else if listStarts p ['/'] then 1
      else 0
    let newComps := (splitSlash p).foldl
      (fun acc comp =>
        if comp = [] ∨ comp = ['.'] then acc
        else if comp ≠ ['.', '.'] ∨ (initialSlashes = 0 ∧ acc = []) ∨
            (acc ≠ [] ∧ acc.getLast? = some ['.', '.']) then acc ++ [comp]
        else if acc ≠ [] then acc.dropLast
        else acc) []
    let path := List.replicate initialSlashes '/' ++ joinSlash newComps
    if path = [] then ['.'] else path

/-- `os.path.normpath` on strings. -/
def normpath (s : String) : String := ofChars (normpathChars s.data)

/-- `posixpath.join` restricted to two arguments, as the plugin calls it. -/
def pjoinChars (a b : List Char) : List Char :=
  if listStarts b ['/'] then b
  else if a = [] ∨ a.getLast? = some '/' then a ++ b
  else a ++ '/' :: b

/-- `os.path.join` on strings. -/
def pjoin (a b : String) : String := ofChars (pjoinChars a.data b.data)

/-- `posixpath.dirname`. -/
def dirnameChars (p : List Char) : List Char :=
  let tailLen := (p.reverse.takeWhile (fun c => !(c = '/'))).length
  let head := p.take (p.length - tailLen)
  if head ≠ [] ∧ head.any (fun c => !(c = '/')) then
    (head.reverse.dropWhile (fun c => c = '/')).reverse
  else head

/-- `os.path.dirname` on strings. -/
def dirname (s : String) : String := ofChars (dirnameChars s.data)

/-! ## `_load_yaml` / `_yaml_load` — the INHERIT chain loader

```python
def _load_yaml(source_path: str):
    with open(source_path, "r", encoding = "utf-8-sig") as file:
        source = file.read()
    try:
        result = yaml.load(source, Loader = get_yaml_loader()) or {}
    except yaml.YAMLError:
        result = {}
    if "INHERIT" in result:
        relpath = result.get('INHERIT')
        abspath = os.path.normpath(os.path.join(os.path.dirname(source_path), relpath))
        if os.path.exists(abspath):
            result["INHERIT"] = abspath
            parent = _load_yaml(abspath)
            if isinstance(parent, list):
                result = [result, *parent]
            elif isinstance(parent, dict):
                result = [result, parent]
    return result if result else {}
```

A configuration fragment is a mapping from keys to (string) values; the
filesystem supplies, per path, an existence bit and the outcome of reading
and YAML-parsing the file.  The Python recursion has no cycle guard, so the
embedding takes an explicit fuel argument; `none` stands for running out of
fuel, i.e. non-termination of the Python original. -/

/-- One parsed YAML mapping. -/
structure Fragment where
  pairs : List (String × String)
deriving DecidableEq

/-- Python dict lookup `result.get(k)` (first binding wins). -/
def Fragment.get (f : Fragment) (k : String) : Option String :=
  match f.pairs.find? (fun kv => kv.1 == k) with
  | some kv => some kv.2
  | none => none

/-- Python dict update `result[k] = v` for a key already present. -/
def Fragment.set (f : Fragment) (k v : String) : Fragment :=
  ⟨f.pairs.map fun kv => if kv.1 == k then (kv.1, v) else kv⟩

/-- The empty mapping `{}`. -/
def Fragment.empty : Fragment := ⟨[]⟩

/-- Outcome of reading a file and running the YAML parser on it. -/
inductive ParseOutcome where
  | mapping (f : Fragment)
  | yamlNone
  | yamlError
deriving DecidableEq

/-- The filesystem as the loader sees it. -/
structure FS where
  pathExists : String → Bool
  parse : String → ParseOutcome

/-- `yaml.load(source) or {}` with `yaml.YAMLError` swallowed. -/
def parsedFragment (fs : FS) (path : String) : Fragment :=
  match fs.parse path with
  | .mapping f => f
  | .yamlNone => Fragment.empty
  | .yamlError => Fragment.empty

/-- `_load_yaml` returns either one mapping or a list of mappings. -/
inductive YamlResult where
  | single (f : Fragment)
  | chain (l : List Fragment)
deriving DecidableEq

/-- `_load_yaml` with fuel; `none` models non-termination. -/
def loadYaml (fs : FS) : Nat → String → Option YamlResult
  | 0, _ => none
  | fuel + 1, path =>
    let result := parsedFragment fs path
    match result.get "INHERIT" with
    | some relpath =>
      let abspath := normpath (pjoin (dirname path) relpath)
      if fs.pathExists abspath then
        match loadYaml fs fuel abspath with
        | none => none
        | some (.chain l) => some (.chain (result.set "INHERIT" abspath :: l))
        | some (.single parent) =>
          some (.chain [result.set "INHERIT" abspath, parent])
      else some (.single result)
    | none => some (.single result)

/-- The resolved INHERIT target of a file, when it exists — the unique
recursive call `_load_yaml` would make. -/
def inheritNext (fs : FS) (p : String) : Option String :=
  match (parsedFragment fs p).get "INHERIT" with
  | some relpath =>
    let abspath := normpath (pjoin (dirname p) relpath)
    if fs.pathExists abspath then some abspath else none
  | none => none

/-- The INHERIT chain starting at `p` stops within `n` files. -/
def chainTerm (fs : FS) : Nat → String → Bool
  | 0, _ => false
  | n + 1, p =>
    match inheritNext fs p with
    | none => true
    | some q => chainTerm fs n q

/-- A concrete three-level inheritance chain:
`/proj/mkdocs.yml` inherits `base.yml`, which inherits `root.yml`. -/
def fsChain : FS :=
  ⟨fun p => p == "/proj/mkdocs.yml" || p == "/proj/base.yml" ||
      p == "/proj/root.yml",
   fun p =>
    if p == "/proj/mkdocs.yml" then
      .mapping ⟨[("INHERIT", "base.yml"), ("site_name", "x")]⟩
    else if p == "/proj/base.yml" then
      .mapping ⟨[("INHERIT", "root.yml")]⟩
    else if p == "/proj/root.yml" then
      .mapping ⟨[("theme", "material")]⟩
    else .yamlError⟩

/-- A concrete cyclic chain: `/proj/a.yml` names itself as its INHERIT
target. -/
def fsCycle : FS :=
  ⟨fun p => p == "/proj/a.yml",
   fun p =>
    if p == "/proj/a.yml" then .mapping ⟨[("INHERIT", "a.yml")]⟩
    else .yamlError⟩

/-- Claim C3: on a three-level chain (child, parent, grandparent, each
parent-reference resolving to an existing file, the grandparent with no
parent-reference), `_load_yaml` returns exactly three fragments ordered
child first and grandparent last, the child's and parent's INHERIT fields
rewritten to the resolved absolute paths. -/
theorem loadYaml_three_level_chain (fs : FS) (n : Nat)
    (p1 p2 p3 r1 r2 : String) (f1 f2 f3 : Fragment)
    (h1 : fs.parse p1 = .mapping f1) (h1i : f1.get "INHERIT" = some r1)
    (h1r : normpath (pjoin (dirname p1) r1) = p2)
    (h1e : fs.pathExists p2 = true)
    (h2 : fs.parse p2 = .mapping f2) (h2i : f2.get "INHERIT" = some r2)
    (h2r : normpath (pjoin (dirname p2) r2) = p3)
    (h2e : fs.pathExists p3 = true)
    (h3 : fs.parse p3 = .mapping f3) (h3i : f3.get "INHERIT" = none) :
    loadYaml fs (n + 3) p1 =
      some (.chain [f1.set "INHERIT" p2, f2.set "INHERIT" p3, f3]) := by
  show loadYaml fs (((n + 1) + 1) + 1) p1 = _
  simp [loadYaml, parsedFragment, h1, h1i, h1r, h1e, h2, h2i, h2r, h2e,
    h3, h3i]

/-- Witness for C3 on the concrete chain `fsChain`. -/
theorem loadYaml_three_level_chain_witness :
    loadYaml fsChain 3 "/proj/mkdocs.yml" =
      some (.chain
        [Fragment.set ⟨[("INHERIT", "base.yml"), ("site_name", "x")]⟩
          "INHERIT" "/proj/base.yml",
         Fragment.set ⟨[("INHERIT", "root.yml")]⟩ "INHERIT" "/proj/root.yml",
         ⟨[("theme", "material")]⟩]) :=
  loadYaml_three_level_chain fsChain 0 "/proj/mkdocs.yml" "/proj/base.yml"
    "/proj/root.yml" "base.yml" "root.yml"
    ⟨[("INHERIT", "base.yml"), ("site_name", "x")]⟩
    ⟨[("INHERIT", "root.yml")]⟩ ⟨[("theme", "material")]⟩
    (by decide) (by decide) (by decide) (by decide) (by decide) (by decide)
    (by decide) (by decide) (by decide) (by decide)

/-- Claim C7: a file whose content fails YAML parsing (or parses to nothing)
is treated as the empty mapping; `_load_yaml` swallows the error and returns
the empty mapping rather than an error or a null value. -/
theorem loadYaml_swallows_parse_errors (fs : FS) (p : String) (n : Nat)
    (h : fs.parse p = .yamlError ∨ fs.parse p = .yamlNone) :
    loadYaml fs (n + 1) p = some (.single Fragment.empty) := by
  rcases h with h | h <;>
    simp [loadYaml, parsedFragment, h, Fragment.get, Fragment.empty]

/-- Witness for C7: a filesystem on which every parse raises. -/
theorem loadYaml_swallows_parse_errors_witness :
    loadYaml ⟨fun _ => false, fun _ => .yamlError⟩ 1 "/proj/mkdocs.yml" =
      some (.single Fragment.empty) :=
  loadYaml_swallows_parse_errors ⟨fun _ => false, fun _ => .yamlError⟩
    "/proj/mkdocs.yml" 0 (Or.inl rfl)

/-- Claim C9: the recursive loader terminates on every acyclic chain — fuel
equal to the chain length suffices, so the recursion is well-founded on the
remaining chain length — while on a cyclic chain (the code has no cycle
guard) it never terminates: on `fsCycle` every finite fuel is exhausted. -/
theorem loadYaml_chain_termination :
    (∀ (fs : FS) (n : Nat) (p : String), chainTerm fs n p = true →
      (loadYaml fs n p).isSome = true) ∧
    (∀ fuel : Nat, loadYaml fsCycle fuel "/proj/a.yml" = none) := by
  constructor
  · intro fs n
    induction n with
    | zero =>
      intro p h
      simp [chainTerm] at h
    | succ n ih =>
      intro p hterm
      cases hin : (parsedFragment fs p).get "INHERIT" with
      | none => simp [loadYaml, hin]
      | some r =>
        cases hex : fs.pathExists (normpath (pjoin (dirname p) r)) with
        | false => simp [loadYaml, hin, hex]
        | true =>
          have hnext : inheritNext fs p =
              some (normpath (pjoin (dirname p) r)) := by
            simp [inheritNext, hin, hex]
          have hterm' : chainTerm fs n (normpath (pjoin (dirname p) r)) =
              true := by
            rw [chainTerm, hnext] at hterm
            exact hterm
          have hrec := ih _ hterm'
          obtain ⟨res, hres⟩ := Option.isSome_iff_exists.mp hrec
          cases res with
          | single q => simp [loadYaml, hin, hex, hres]
          | chain l => simp [loadYaml, hin, hex, hres]
  · intro fuel
    induction fuel with
    | zero => rfl
    | succ fuel ih =>
      have hstep : loadYaml fsCycle (fuel + 1) "/proj/a.yml" =
          (match loadYaml fsCycle fuel "/proj/a.yml" with
           | none => none
           | some (.chain l) =>
             some (.chain (Fragment.mk [("INHERIT", "/proj/a.yml")] :: l))
           | some (.single parent) =>
             some (.chain [Fragment.mk [("INHERIT", "/proj/a.yml")],
               parent])) := rfl
      rw [hstep, ih]

/-- Witness for C9: the concrete acyclic chain of `fsChain` has length 3 and
the loader succeeds with fuel 3. -/
theorem loadYaml_chain_termination_witness :
    chainTerm fsChain 3 "/proj/mkdocs.yml" = true ∧
    (loadYaml fsChain 3 "/proj/mkdocs.yml").isSome = true :=
  ⟨by decide,
   loadYaml_chain_termination.1 fsChain 3 "/proj/mkdocs.yml" (by decide)⟩

/-! ## Initial-segment toolkit

Small facts about `isPre` used to reason about the directory walk. -/

theorem isPre_append (a t : List Char) : isPre a (a ++ t) := ⟨t, rfl⟩

theorem isPre_trans {a b c : List Char} (h1 : isPre a b) (h2 : isPre b c) :
    isPre a c := by
  obtain ⟨t1, rfl⟩ := h1
  obtain ⟨t2, rfl⟩ := h2
  exact ⟨t1 ++ t2, by simp⟩

theorem isPre_cancel {A x y : List Char} :
    isPre (A ++ x) (A ++ y) ↔ isPre x y := by
  constructor
  · rintro ⟨t, h⟩
    rw [List.append_assoc] at h
    exact ⟨t, List.append_cancel_left h⟩
  · rintro ⟨t, rfl⟩
    exact ⟨t, by simp⟩

theorem isPre_mem {a b : List Char} (h : isPre a b) {c : Char} (hc : c ∈ a) :
    c ∈ b := by
  obtain ⟨t, rfl⟩ := h
  exact List.mem_append.mpr (Or.inl hc)

theorem isPre_total {a b c : List Char} (h1 : isPre a c) (h2 : isPre b c) :
    isPre a b ∨ isPre b a := by
  obtain ⟨t1, h1⟩ := h1
  obtain ⟨t2, h2⟩ := h2
  rw [← h2] at h1
  rcases List.append_eq_append_iff.mp h1 with ⟨a2, ha, _⟩ | ⟨c2, ha, _⟩
  · exact Or.inl ⟨a2, ha.symm⟩
  · exact Or.inr ⟨c2, ha.symm⟩

theorem snoc_isPre_cases {x y : List Char} {c : Char}
    (h : isPre (x ++ [c]) (y ++ [c])) : x = y ∨ isPre (x ++ [c]) y := by
  obtain ⟨t, ht⟩ := h
  cases htn : t with
  | nil =>
    subst htn
    rw [List.append_nil] at ht
    exact Or.inl (List.append_inj_left' ht rfl)
  | cons hd tl =>
    subst htn
    have htne : (hd :: tl) ≠ ([] : List Char) := by simp
    have hdecomp := List.dropLast_concat_getLast htne
    rw [← hdecomp, ← List.append_assoc] at ht
    have hx := List.append_inj_left' ht (by simp)
    exact Or.inr ⟨(hd :: tl).dropLast, hx⟩

/-- Strings with equal character data are equal. -/
theorem strExt {a b : String} (h : a.data = b.data) : a = b := by
  cases a
  cases b
  cases h
  rfl

/-! ## The archive walk

`on_config` (src variant) walks the working directory:

```python
for abs_root, dirnames, filenames in os.walk(os.getcwd()):
    # Prune the folder in-place to prevent scanning excluded folders
    for name in list(dirnames):
        pattern = _resolve_pattern(os.path.join(abs_root, name))
        if self._is_excluded(pattern):
            dirnames.remove(name)
    for name in filenames:
        path = os.path.join(abs_root, name)
        pattern = _resolve_pattern(path)
        if self._is_excluded(pattern):
            continue
        path = os.path.relpath(path, os.path.curdir)
        f.write(path, os.path.join(example, path))
```

The filesystem subtree is a finite tree of named directories and file
names.  Iterating over a copy (`list(dirnames)`) while removing by value
from the live list keeps exactly the non-excluded names, so pruning is a
filter; a pruned directory is neither yielded by `os.walk` nor entered.
`walkNode` returns the visited directories (the roots `os.walk` yields) and
the written file paths, in traversal order. -/

/-- One directory of the filesystem tree: named subdirectories and file
names. -/
inductive DirNode where
  | node (subdirs : List (String × DirNode)) (files : List String)

/-- Everything the walk consults: loaded exclusion patterns, the working
directory, and the regular-file predicate used by `_resolve_pattern`. -/
structure WalkCtx where
  pats : List String
  cwd : String
  isfile : String → Bool

/-- Exclusion decision for an absolute path, as the walk performs it. -/
def excludedAt (ctx : WalkCtx) (ap : String) : Bool :=
  isExcluded ctx.pats (resolvePattern ctx.cwd '/' ctx.isfile ap)

mutual

/-- Visited directories and written files of the pruned walk rooted at the
directory `ap` with contents `t`. -/
def walkNode (ctx : WalkCtx) (ap : String) : DirNode → List String × List String
  | .node subdirs files =>
    let written := (files.filter fun nm => !(excludedAt ctx (pjoin ap nm))).map
      fun nm => pjoin ap nm
    let sub := walkSubs ctx ap subdirs
    (ap :: sub.1, written ++ sub.2)

/-- The walk over the (pruned) subdirectory list of a directory `ap`. -/
def walkSubs (ctx : WalkCtx) (ap : String) :
    List (String × DirNode) → List String × List String
  | [] => ([], [])
  | (nm, d) :: rest =>
    let child :=
      if excludedAt ctx (pjoin ap nm) then ([], [])
      else walkNode ctx (pjoin ap nm) d
    let r := walkSubs ctx ap rest
    (child.1 ++ r.1, child.2 ++ r.2)

end

/-- A legal directory or file name: non-empty, no path separator. -/
def validName (nm : String) : Bool :=
  !(nm.data.isEmpty) && !(nm.data.contains '/')

mutual

/-- All names in the tree are legal. -/
def validNode : DirNode → Bool
  | .node subdirs files => files.all validName && validSubs subdirs

/-- All names in a subdirectory list are legal. -/
def validSubs : List (String × DirNode) → Bool
  | [] => true
  | (nm, d) :: rest => validName nm && validNode d && validSubs rest

end

/-- A well-formed absolute directory path: non-empty, no trailing slash. -/
def goodAbs (ap : String) : Prop :=
  ap.data ≠ [] ∧ ap.data.getLast? ≠ some '/'

/-- `p` is the path `B` itself or lies strictly beneath it. -/
def atOrBeneath (B p : String) : Bool :=
  (p == B) || listStarts p.data (B.data ++ ['/'])

theorem atOrBeneath_iff (B p : String) :
    atOrBeneath B p = true ↔ p = B ∨ isPre (B.data ++ ['/']) p.data := by
  simp [atOrBeneath, listStarts_iff]

theorem validName_ne_nil {nm : String} (h : validName nm = true) :
    nm.data ≠ [] := by
  simp only [validName, Bool.and_eq_true, Bool.not_eq_true'] at h
  intro hd
  rw [hd] at h
  simp at h

theorem validName_no_slash {nm : String} (h : validName nm = true) :
    '/' ∉ nm.data := by
  simp only [validName, Bool.and_eq_true, Bool.not_eq_true'] at h
  intro hmem
  have := List.elem_iff.mpr hmem
  rw [List.contains] at h
  rw [this] at h
  simp at h

theorem ofChars_data (l : List Char) : (ofChars l).data = l := rfl

theorem pjoin_data {ap nm : String} (ha : goodAbs ap)
    (hn : validName nm = true) :
    (pjoin ap nm).data = ap.data ++ '/' :: nm.data := by
  have hnn := validName_ne_nil hn
  have hns := validName_no_slash hn
  have h1 : listStarts nm.data ['/'] = false := by
    cases hd : nm.data with
    | nil => exact absurd hd hnn
    | cons c cs =>
      simp only [listStarts, Bool.and_eq_true]
      cases hc : decide (c = '/') with
      | false => simp
      | true =>
        have : c = '/' := of_decide_eq_true hc
        subst this
        exact absurd (hd ▸ List.mem_cons_self _ _) hns
  rw [pjoin, pjoinChars]
  rw [h1]
  simp only [Bool.false_eq_true, if_false]
  rw [if_neg]
  · rfl
  · push_neg
    exact ⟨ha.1, ha.2⟩

theorem goodAbs_pjoin {ap nm : String} (ha : goodAbs ap)
    (hn : validName nm = true) : goodAbs (pjoin ap nm) := by
  have hnn := validName_ne_nil hn
  have hns := validName_no_slash hn
  rw [goodAbs, pjoin_data ha hn]
  constructor
  · simp
  · have hcons : ('/' :: nm.data : List Char) = ['/'] ++ nm.data := rfl
    rw [List.getLast?_append_of_ne_nil _ (by simp), hcons,
      List.getLast?_append_of_ne_nil _ hnn]
    intro hlast
    exact hns (List.mem_of_mem_getLast? hlast)

/-- An entry `ap/nm` that survived the exclusion check is neither the
excluded path `B` nor beneath it, provided the parent `ap` is not at or
beneath `B`. -/
theorem not_beneath_child {ctx : WalkCtx} {ap B nm : String}
    (hexB : excludedAt ctx B = true)
    (hroot : ¬(ap = B ∨ isPre (B.data ++ ['/']) ap.data))
    (ha : goodAbs ap) (hn : validName nm = true)
    (hkept : excludedAt ctx (pjoin ap nm) = false) :
    ¬(pjoin ap nm = B ∨ isPre (B.data ++ ['/']) (pjoin ap nm).data) := by
  rintro (heq | hpre)
  · rw [heq, hexB] at hkept
    exact absurd hkept (by simp)
  · rw [pjoin_data ha hn] at hpre
    have hYdecomp : ap.data ++ '/' :: nm.data =
        (ap.data ++ ['/']) ++ nm.data := by simp
    rw [hYdecomp] at hpre
    have hY : isPre (ap.data ++ ['/']) ((ap.data ++ ['/']) ++ nm.data) :=
      isPre_append _ _
    rcases isPre_total hpre hY with hXY | hYX
    · rcases snoc_isPre_cases hXY with heqd | hpre2
      · exact hroot (Or.inl (strExt heqd.symm))
      · exact hroot (Or.inr hpre2)
    · rcases snoc_isPre_cases hYX with heqd | hpre2
      · exact hroot (Or.inl (strExt heqd))
      · obtain ⟨m, hm⟩ := hpre2
        rw [← hm, List.append_assoc] at hpre
        have hmp := isPre_cancel.mp hpre
        have hslash : '/' ∈ nm.data :=
          isPre_mem hmp (List.mem_append.mpr (Or.inr (by simp)))
        exact validName_no_slash hn hslash

mutual

/-- Invariant propagated by the pruned walk from a directory whose path is
not at or beneath the excluded path `B`: no visited directory and no written
file is at or beneath `B`. -/
theorem walkNode_not_beneath (ctx : WalkCtx) (B : String)
    (hexB : excludedAt ctx B = true) (ap : String) (t : DirNode)
    (hval : validNode t = true) (ha : goodAbs ap)
    (hroot : ¬(ap = B ∨ isPre (B.data ++ ['/']) ap.data)) :
    (∀ v ∈ (walkNode ctx ap t).1,
      ¬(v = B ∨ isPre (B.data ++ ['/']) v.data)) ∧
    (∀ w ∈ (walkNode ctx ap t).2,
      ¬(w = B ∨ isPre (B.data ++ ['/']) w.data)) := by
  cases t with
  | node subdirs files =>
    have hval2 : files.all validName = true ∧ validSubs subdirs = true := by
      simpa [validNode, Bool.and_eq_true] using hval
    have hsub := walkSubs_not_beneath ctx B hexB ap subdirs hval2.2 ha hroot
    constructor
    · intro v hv
      simp only [walkNode, List.mem_cons] at hv
      rcases hv with rfl | hv2
      · exact hroot
      · exact hsub.1 v hv2
    · intro w hw
      simp only [walkNode, List.mem_append] at hw
      rcases hw with hw1 | hw2
      · obtain ⟨nm, hnm, rfl⟩ := List.mem_map.mp hw1
        have hmf := List.mem_filter.mp hnm
        have hnmv : validName nm = true :=
          List.all_eq_true.mp hval2.1 nm hmf.1
        have hkept : excludedAt ctx (pjoin ap nm) = false := by
          simpa using hmf.2
        exact not_beneath_child hexB hroot ha hnmv hkept
      · exact hsub.2 w hw2

/-- The same invariant for the subdirectory sweep. -/
theorem walkSubs_not_beneath (ctx : WalkCtx) (B : String)
    (hexB : excludedAt ctx B = true) (ap : String)
    (l : List (String × DirNode))
    (hval : validSubs l = true) (ha : goodAbs ap)
    (hroot : ¬(ap = B ∨ isPre (B.data ++ ['/']) ap.data)) :
    (∀ v ∈ (walkSubs ctx ap l).1,
      ¬(v = B ∨ isPre (B.data ++ ['/']) v.data)) ∧
    (∀ w ∈ (walkSubs ctx ap l).2,
      ¬(w = B ∨ isPre (B.data ++ ['/']) w.data)) := by
  cases l with
  | nil =>
    constructor <;> intro x hx <;> simp [walkSubs] at hx
  | cons hd rest =>
    obtain ⟨nm, d⟩ := hd
    have hval3 : validName nm = true ∧ validNode d = true ∧
        validSubs rest = true := by
      simpa [validSubs, Bool.and_eq_true, and_assoc] using hval
    have hrest := walkSubs_not_beneath ctx B hexB ap rest hval3.2.2 ha hroot
    by_cases hex : excludedAt ctx (pjoin ap nm) = true
    · constructor
      · intro v hv
        simp only [walkSubs, hex, if_true, List.nil_append] at hv
        exact hrest.1 v hv
      · intro w hw
        simp only [walkSubs, hex, if_true, List.nil_append] at hw
        exact hrest.2 w hw
    · have hexf : excludedAt ctx (pjoin ap nm) = false :=
        eq_false_of_ne_true hex
      have hroot2 := not_beneath_child hexB hroot ha hval3.1 hexf
      have hchild := walkNode_not_beneath ctx B hexB (pjoin ap nm) d
        hval3.2.1 (goodAbs_pjoin ha hval3.1) hroot2
      constructor
      · intro v hv
        simp only [walkSubs, hexf, Bool.false_eq_true, if_false,
          List.mem_append] at hv
        rcases hv with hv1 | hv2
        · exact hchild.1 v hv1
        · exact hrest.1 v hv2
      · intro w hw
        simp only [walkSubs, hexf, Bool.false_eq_true, if_false,
          List.mem_append] at hw
        rcases hw with hw1 | hw2
        · exact hchild.2 w hw1
        · exact hrest.2 w hw2

end

/-- Claim C4: with `build/` among the loaded patterns and `B` a directory
whose normalized path is `build/`, `_is_excluded` holds on that normalized
path, and the pruned walk of any valid tree rooted outside `B` neither
visits a directory at or beneath `B` nor writes a file at or beneath `B`
into the archive — pruning before descent, not post-filtering. -/
theorem walk_never_descends_into_excluded (ctx : WalkCtx) (t : DirNode)
    (ap B : String) (hpat : "build/" ∈ ctx.pats)
    (hnorm : resolvePattern ctx.cwd '/' ctx.isfile B = "build/")
    (hval : validNode t = true) (ha : goodAbs ap)
    (hroot : atOrBeneath B ap = false) :
    isExcluded ctx.pats (resolvePattern ctx.cwd '/' ctx.isfile B) = true ∧
    (∀ v ∈ (walkNode ctx ap t).1, atOrBeneath B v = false) ∧
    (∀ w ∈ (walkNode ctx ap t).2, atOrBeneath B w = false) := by
  have hexB : excludedAt ctx B = true := by
    rw [excludedAt, hnorm]
    exact List.any_eq_true.mpr ⟨"build/", hpat, by decide⟩
  have hroot2 : ¬(ap = B ∨ isPre (B.data ++ ['/']) ap.data) := by
    intro h
    rw [← atOrBeneath_iff, hroot] at h
    exact absurd h (by simp)
  have hmain := walkNode_not_beneath ctx B hexB ap t hval ha hroot2
  refine ⟨hexB, ?_, ?_⟩
  · intro v hv
    cases hab : atOrBeneath B v with
    | false => rfl
    | true => exact absurd ((atOrBeneath_iff B v).mp hab) (hmain.1 v hv)
  · intro w hw
    cases hab : atOrBeneath B w with
    | false => rfl
    | true => exact absurd ((atOrBeneath_iff B w).mp hab) (hmain.2 w hw)

/-- A concrete walk context and tree for the C4 witness: working directory
string `/r/` (so `/r/build` normalizes to `build/`), patterns `["build/"]`,
no regular files among directories. -/
def wctx : WalkCtx :=
  ⟨["build/"], "/r/",
   fun p => p == "/r/build/x.txt" || p == "/r/docs/a.md" ||
     p == "/r/mkdocs.yml"⟩

/-- The witness tree: `build` (with one file) and `docs` beside a config
file. -/
def wtree : DirNode :=
  .node [("build", .node [] ["x.txt"]), ("docs", .node [] ["a.md"])]
    ["mkdocs.yml"]

/-- Witness for C4 on the concrete context: `/r/build` normalizes to
`build/`, is excluded, and the walk output avoids it and everything beneath
it. -/
theorem walk_never_descends_into_excluded_witness :
    isExcluded wctx.pats (resolvePattern wctx.cwd '/' wctx.isfile
      "/r/build") = true ∧
    (∀ v ∈ (walkNode wctx "/r" wtree).1, atOrBeneath "/r/build" v = false) ∧
    (∀ w ∈ (walkNode wctx "/r" wtree).2,
      atOrBeneath "/r/build" w = false) :=
  walk_never_descends_into_excluded wctx wtree "/r" "/r/build"
    (by decide) (by decide) (by decide) ⟨by decide, by decide⟩ (by decide)

/-! ## Archive assembly

After the walk, `on_config` adds two synthetic entries:

```python
f.writestr(os.path.join(example, "requirements.lock.txt"),
    "\n".join(sorted(["==".join([package.name, package.version])
        for package in distributions()])))
f.writestr(os.path.join(example, "platform.json"), json.dumps({...}))
```

Each surviving walked file is written at
`os.path.join(example, os.path.relpath(path, os.path.curdir))`.  The
archive is the list of `(entry name, content)` pairs. -/

/-- The library collaborator `os.path.relpath(path, os.path.curdir)`, on
the inputs the plugin feeds it: for an absolute path beneath the working
directory it strips the working directory and its separator; other paths
(which the walk never produces) are returned unchanged. -/
def relpathUnder (cwd p : String) : String :=
  if listStarts p.data (cwd.data ++ ['/']) then
    ofChars (p.data.drop (cwd.data.length + 1))
  else p

/-- `requirements.lock.txt`: sorted `name==version` lines. -/
def lockManifest (packages : List (String × String)) : String :=
  String.intercalate "\n"
    ((packages.map fun pkg => pkg.1 ++ "==" ++ pkg.2).mergeSort
      (fun a b => decide (a ≤ b)))

/-- The produced archive: surviving walked files under the `exname` prefix
folder, then the two synthetic entries. -/
def assembleArchive (ctx : WalkCtx) (t : DirNode) (exname : String)
    (readFile : String → String) (packages : List (String × String))
    (platformJson : String) : List (String × String) :=
  ((walkNode ctx ctx.cwd t).2.map fun p =>
    (pjoin exname (relpathUnder ctx.cwd p), readFile p))
  ++ [(pjoin exname "requirements.lock.txt", lockManifest packages),
      (pjoin exname "platform.json", platformJson)]

/-- Claim C8: whatever the exclusion rules, the archive always holds
`requirements.lock.txt` (the sorted `name==version` manifest) and
`platform.json` under the `exname` prefix, and every non-excluded walked
file is retrievable at its working-directory-relative path under that same
prefix. -/
theorem archive_contains_entries (ctx : WalkCtx) (t : DirNode)
    (exname : String) (readFile : String → String)
    (packages : List (String × String)) (platformJson : String) :
    (pjoin exname "requirements.lock.txt", lockManifest packages) ∈
      assembleArchive ctx t exname readFile packages platformJson ∧
    (pjoin exname "platform.json", platformJson) ∈
      assembleArchive ctx t exname readFile packages platformJson ∧
    (∀ p ∈ (walkNode ctx ctx.cwd t).2,
      (pjoin exname (relpathUnder ctx.cwd p), readFile p) ∈
        assembleArchive ctx t exname readFile packages platformJson) := by
  refine ⟨?_, ?_, ?_⟩
  · rw [assembleArchive]
    exact List.mem_append.mpr (Or.inr (by simp))
  · rw [assembleArchive]
    exact List.mem_append.mpr (Or.inr (by simp))
  · intro p hp
    rw [assembleArchive]
    exact List.mem_append.mpr (Or.inl (List.mem_map_of_mem _ hp))

/-- Witness for C8 on the concrete context `wctx`/`wtree`: both synthetic
entries are present and the surviving file `/r/mkdocs.yml` is retrievable
under the prefix. -/
theorem archive_contains_entries_witness :
    (pjoin "9.0-test" "requirements.lock.txt",
        lockManifest [("mkdocs", "1.6")]) ∈
      assembleArchive wctx wtree "9.0-test" (fun _ => "data")
        [("mkdocs", "1.6")] "{}" ∧
    (pjoin "9.0-test" (relpathUnder wctx.cwd "/r/mkdocs.yml"),
        (fun _ : String => "data") "/r/mkdocs.yml") ∈
      assembleArchive wctx wtree "9.0-test" (fun _ => "data")
        [("mkdocs", "1.6")] "{}" :=
  ⟨(archive_contains_entries wctx wtree "9.0-test" (fun _ => "data")
      [("mkdocs", "1.6")] "{}").1,
   (archive_contains_entries wctx wtree "9.0-test" (fun _ => "data")
      [("mkdocs", "1.6")] "{}").2.2 "/r/mkdocs.yml" (by decide)⟩

end Info
